import Mathlib

/-!
Verification of the `vuln_injector` core (sc-ast-injector repository).

This file is a shallow embedding, in Lean 4, of the parts of the Python
source that the specification's claims are about:

* the byte-splicing engine `BaseInjector._apply_payloads`
  (`src/vuln_injector/injectors.py`) together with the provenance-region
  bookkeeping `InjectionMetadata.add_region` (`src/vuln_injector/models.py`);
* the version-compatibility test `is_version_compatible` and the
  indentation detector `detect_indentation` (`src/vuln_injector/utils.py`);
* the cross-function location discovery `CoupledInjector.find_locations`
  (`src/vuln_injector/injectors.py`) over the semantic entities of
  `src/vuln_injector/models.py`;
* the template-selection logic of `PointPayloadGenerator.generate`
  (`src/vuln_injector/payload_generators.py`) and of
  `CoupledInjector.inject`;
* the collision-avoiding name generation `generate_unique_name` /
  `generate_var_names` (`src/vuln_injector/templates/point_injection.py`).

Modelling conventions:

* byte buffers are `List Nat` (one entry per byte); Python's clamping
  slices `b[:i]` / `b[i:]` are `List.take` / `List.drop`, which clamp the
  same way;
* Python strings that the code inspects byte-wise are `List Char`;
* `random.choice` / `random.randint` are modelled by explicit draw
  streams and suffix arguments: any actual run of the Python code
  corresponds to one choice of these parameters;
* `sorted(payloads, key=lambda p: p.offset, reverse=True)` is a stable
  descending sort; it is modelled by `List.insertionSort` with the
  non-strict relation `q.offset ≤ p.offset`, which is also stable, and a
  stable sort of a given key sequence has a unique result;
* the `randomize=False` (deterministic) branch of `select_one` is
  modelled (`items[0]`); metadata tracking is modelled as always on
  (in the source it is skipped when `self.metadata is None`).
-/

/-! ### Splicing engine: data model

`InjectionPayload` is the dataclass of `src/vuln_injector/models.py`
(absolute `offset` into the original buffer, raw `content` bytes, and a
component label).  `InjectedRegion` is one entry of
`InjectionMetadata.injected_regions` as produced by
`InjectionMetadata.add_region`. -/

structure InjectionPayload where
  offset : Nat
  content : List Nat
  component_name : String
deriving DecidableEq, Repr

structure InjectedRegion where
  start_byte : Nat
  end_byte : Nat
  component : String
  description : String
deriving DecidableEq, Repr

/-- Descending-offset order used by `sorted(payloads, key=lambda p: p.offset,
reverse=True)`: `p` may come before `q` when `q.offset ≤ p.offset`. -/
def payloadDescOrder (p q : InjectionPayload) : Prop :=
  q.offset ≤ p.offset

instance : DecidableRel payloadDescOrder :=
  fun p q => Nat.decLe q.offset p.offset

instance : IsTotal InjectionPayload payloadDescOrder :=
  ⟨fun p q => Nat.le_total q.offset p.offset⟩

instance : IsTrans InjectionPayload payloadDescOrder :=
  ⟨fun _ _ _ h1 h2 => Nat.le_trans h2 h1⟩

instance : IsAntisymm InjectionPayload fun p q => q.offset < p.offset :=
  ⟨fun _ _ h1 h2 => absurd h2 (Nat.lt_asymm h1)⟩

/-- Model of `sorted(payloads, key=lambda p: p.offset, reverse=True)` from
`BaseInjector._apply_payloads`.  Python's `sorted` is stable; so is
`List.insertionSort`, and a stable descending sort has a unique result, so
the two agree on every input. -/
def sortPayloadsDesc (payloads : List InjectionPayload) : List InjectionPayload :=
  payloads.insertionSort payloadDescOrder

/-- Total content length of a payload list:
`sum(len(p.content) for p in ...)` in `_apply_payloads`. -/
def sumLen (payloads : List InjectionPayload) : Nat :=
  (payloads.map fun p => p.content.length).sum

/-- The `for i, payload in enumerate(sorted_payloads)` loop of
`BaseInjector._apply_payloads`: for the payload at hand,
`bytes_added_after` is the total content length of the remaining (lower
offset) payloads, the final placement is
`[offset + bytes_added_after, offset + bytes_added_after + len(content))`,
the buffer is re-spliced as `content[:offset] + payload + content[offset:]`
and the region is appended to the metadata via
`InjectionMetadata.add_region`. -/
def applyLoop :
    List InjectionPayload → List Nat → List InjectedRegion →
      List Nat × List InjectedRegion
  | [], content, regions => (content, regions)
  | p :: rest, content, regions =>
    let final_start := p.offset + sumLen rest
    let final_end := final_start + p.content.length
    let content' := content.take p.offset ++ p.content ++ content.drop p.offset
    applyLoop rest content'
      (regions ++ [⟨final_start, final_end, p.component_name,
                    "Injected " ++ p.component_name ++ " code"⟩])

/-- `BaseInjector._apply_payloads`: sort by offset descending, then apply
the loop, starting from the source buffer and an empty region list.  It
returns the spliced buffer together with the recorded metadata regions. -/
def apply_payloads (payloads : List InjectionPayload) (content : List Nat) :
    List Nat × List InjectedRegion :=
  applyLoop (sortPayloadsDesc payloads) content []

/-- Closed form of the region list the loop appends for a payload list:
each payload is recorded at
`[offset + sumLen rest, offset + sumLen rest + len)` where `rest` is the
remaining (later applied) suffix.  Derived bookkeeping description of
`applyLoop`, used to state properties. -/
def mkRegions : List InjectionPayload → List InjectedRegion
  | [] => []
  | p :: rest =>
    ⟨p.offset + sumLen rest, p.offset + sumLen rest + p.content.length,
     p.component_name, "Injected " ++ p.component_name ++ " code"⟩ ::
      mkRegions rest

/-- Start byte that claim C2 asserts is recorded for payload `p`: the
original offset plus the total length of all fragments inserted at
strictly higher offsets.  Written from the claim's words, to be compared
with what the code records. -/
def claimedStartHigher (payloads : List InjectionPayload) (p : InjectionPayload) : Nat :=
  p.offset + sumLen (payloads.filter fun q => decide (p.offset < q.offset))

/-! ### Version compatibility (`src/vuln_injector/utils.py`)

`is_version_compatible` parses each version string by removing the
prefixes `^`, `>=`, `>`, `<` (Python `str.replace`, i.e. every
occurrence, applied in that order), stripping whitespace, splitting on
`.`, keeping the first three parts, dropping non-digit parts, and
comparing the resulting integer tuples lexicographically
(`min_v <= ver <= max_v`).  The `except` fallback of the source is
unreachable for ASCII inputs: `int(p)` is only applied to parts where
`p.isdigit()` holds, so it never raises; it is therefore not modelled. -/

/-- Python `v.replace('^', '')`: removing a single character is a filter. -/
def removeCaret (s : List Char) : List Char :=
  s.filter fun c => c ≠ '^'

/-- Python `v.replace('>=', '')`: remove non-overlapping occurrences of
`>=` left to right, without re-scanning the replacement point. -/
def removeGE : List Char → List Char
  | [] => []
  | '>' :: '=' :: rest => removeGE rest
  | c :: rest => c :: removeGE rest

/-- Python `v.replace('>', '')`. -/
def removeGT (s : List Char) : List Char :=
  s.filter fun c => c ≠ '>'

/-- Python `v.replace('<', '')`. -/
def removeLT (s : List Char) : List Char :=
  s.filter fun c => c ≠ '<'

/-- Python `str.strip()` whitespace set: space, tab, newline, carriage
return, vertical tab, form feed. -/
def isPySpace (c : Char) : Bool :=
  c = ' ' || c = '\t' || c = '\n' || c = '\r' || c.toNat == 11 || c.toNat == 12

/-- Python `str.strip()`: drop leading and trailing whitespace. -/
def pyStrip (s : List Char) : List Char :=
  ((s.dropWhile isPySpace).reverse.dropWhile isPySpace).reverse

/-- Python `v.split('.')`: split on every dot, keeping empty segments. -/
def splitOnDot : List Char → List (List Char)
  | [] => [[]]
  | c :: rest =>
    if c = '.' then [] :: splitOnDot rest
    else
      match splitOnDot rest with
      | [] => [[c]]
      | t :: ts => (c :: t) :: ts

/-- Python `p.isdigit()` for ASCII: non-empty and all decimal digits. -/
def isDigitPart (s : List Char) : Bool :=
  !s.isEmpty && s.all fun c => '0' ≤ c && c ≤ '9'

/-- Python `int(p)` on a decimal digit string. -/
def digitsToNat (s : List Char) : Nat :=
  s.foldl (fun n c => 10 * n + (c.toNat - 48)) 0

/-- The inner `parse_version` of `is_version_compatible`. -/
def parse_version (v : List Char) : List Nat :=
  let cleaned := pyStrip (removeLT (removeGT (removeGE (removeCaret v))))
  let parts := (splitOnDot cleaned).take 3
  (parts.filter isDigitPart).map digitsToNat

/-- Python tuple `<=` on integer tuples: lexicographic, a strict prefix is
smaller. -/
def tupleLE : List Nat → List Nat → Bool
  | [], _ => true
  | _ :: _, [] => false
  | a :: as, b :: bs =>
    if a < b then true
    else if b < a then false
    else tupleLE as bs

/-- `is_version_compatible(version, min_version, max_version)` from
`src/vuln_injector/utils.py`: `min_v <= ver <= max_v` on parsed tuples. -/
def is_version_compatible (version min_version max_version : List Char) : Bool :=
  tupleLE (parse_version min_version) (parse_version version) &&
  tupleLE (parse_version version) (parse_version max_version)

/-- Lexicographic `≤` on (major, minor, patch) triples, written from the
spec's words ("three-component (major, minor, patch) lexicographic
comparison"), to be compared with the code's tuple comparison. -/
def specTripleLE (x y : Nat × Nat × Nat) : Prop :=
  x.1 < y.1 ∨ (x.1 = y.1 ∧ (x.2.1 < y.2.1 ∨ (x.2.1 = y.2.1 ∧ x.2.2 ≤ y.2.2)))

/-- Strict lexicographic `<` on (major, minor, patch) triples ("strictly
below `min_version` / strictly above `max_version`"). -/
def specTripleLT (x y : Nat × Nat × Nat) : Prop :=
  x.1 < y.1 ∨ (x.1 = y.1 ∧ (x.2.1 < y.2.1 ∨ (x.2.1 = y.2.1 ∧ x.2.2 < y.2.2)))

instance (x y : Nat × Nat × Nat) : Decidable (specTripleLE x y) := by
  unfold specTripleLE; infer_instance

instance (x y : Nat × Nat × Nat) : Decidable (specTripleLT x y) := by
  unfold specTripleLT; infer_instance

/-! ### Semantic entities and cross-function discovery

`FunctionInfo` / `ContractInfo` are the dataclasses of
`src/vuln_injector/models.py`.  `FunctionInfo.from_ast_node` stores
`is_payable = (stateMutability == "payable")` and
`has_params = len(params) > 0`; they are modelled as stored fields, as in
the dataclass.  `ContractInfo.functions` stands for the `FunctionInfo`
list that `find_functions_in_contract` extracts from the contract's AST
node (`src/vuln_injector/ast_helpers.py`); `params` holds the declared
type strings of the function's input parameters. -/

structure FunctionInfo where
  id : Nat
  name : String
  visibility : String
  state_mutability : String
  is_payable : Bool
  params : List String
  has_params : Bool
deriving DecidableEq, Repr

/-- `FunctionInfo.is_public_or_external`. -/
def FunctionInfo.is_public_or_external (f : FunctionInfo) : Bool :=
  ["public", "external"].contains f.visibility

/-- `FunctionInfo.is_state_modifying`: mutability not in
`["view", "pure", "constant"]`. -/
def FunctionInfo.is_state_modifying (f : FunctionInfo) : Bool :=
  !(["view", "pure", "constant"].contains f.state_mutability)

structure ContractInfo where
  id : Nat
  name : String
  contract_kind : String
  functions : List FunctionInfo
deriving DecidableEq, Repr

/-- `ContractInfo.is_concrete_contract`: kind not in
`["interface", "library"]`. -/
def ContractInfo.is_concrete_contract (c : ContractInfo) : Bool :=
  !(["interface", "library"].contains c.contract_kind)

/-- `CoupledInjectionSet` from `src/vuln_injector/models.py`. -/
structure CoupledInjectionSet where
  contract : ContractInfo
  setter : FunctionInfo
  executor : FunctionInfo
deriving DecidableEq, Repr

/-- Setter candidates of `CoupledInjector.find_locations`: externally
callable, state modifying, with at least one parameter. -/
def setter_candidates (fns : List FunctionInfo) : List FunctionInfo :=
  fns.filter fun f =>
    f.is_public_or_external && f.is_state_modifying && f.has_params

/-- Executor candidates of `CoupledInjector.find_locations`: externally
callable, state modifying, payable or parameterless. -/
def executor_candidates (fns : List FunctionInfo) : List FunctionInfo :=
  fns.filter fun f =>
    f.is_public_or_external && f.is_state_modifying &&
      (f.is_payable || !f.has_params)

/-- The per-contract pair construction of `CoupledInjector.find_locations`:
for a concrete contract, every (setter, executor) combination with
`setter.id != executor.id`, in the source's nested loop order. -/
def contract_pairs (c : ContractInfo) : List CoupledInjectionSet :=
  if c.is_concrete_contract then
    (setter_candidates c.functions).flatMap fun setter =>
      ((executor_candidates c.functions).filter fun executor =>
          setter.id != executor.id).map
        fun executor => ⟨c, setter, executor⟩
  else []

/-- `CoupledInjector.find_locations`: iterate the discovered contracts and
collect all pairs. -/
def find_locations (contracts : List ContractInfo) : List CoupledInjectionSet :=
  contracts.flatMap contract_pairs

/-! ### Template selection (`PointPayloadGenerator.generate` and
`CoupledInjector.inject`)

Both selection steps are modelled over template names.  `compatible` is
the ordered name list of the version-compatible templates
(`get_compatible_templates`), `req` is
`check_template_requirements(template, location)` for the selected
location, and `filtered` preserves `compatible`'s order, as the Python
dict comprehension does.  `select_one(items, randomize)` is modelled in
its deterministic branch `items[0]` (`randomize=False`). -/

/-- `select_one(items, randomize=False)` from `src/vuln_injector/utils.py`:
`None` on an empty list, else the first element. -/
def select_one {α : Type} (items : List α) : Option α :=
  items.head?

/-- The selection path of `PointPayloadGenerator.generate`
(`src/vuln_injector/payload_generators.py`): error when nothing is
version-compatible, error when nothing satisfies the location
requirements, then: a named template that survived both filters is taken;
a named template that is version-compatible but fails the requirements
raises; any other name falls through to `select_one` over the filtered
names — a silent substitution. -/
def point_generate_select (compatible : List String) (req : String → Bool)
    (template_name : Option String) : Except String String :=
  if compatible.isEmpty then
    Except.error "No compatible templates for this Solidity version and vuln type"
  else
    let filtered := compatible.filter req
    if filtered.isEmpty then
      Except.error "No compatible templates for location"
    else
      match template_name with
      | some n =>
        if filtered.contains n then Except.ok n
        else if compatible.contains n then
          Except.error
            ("Template " ++ n ++ " is incompatible with function (state mutability)")
        else
          match select_one filtered with
          | some k => Except.ok k
          | none => Except.error "unreachable: filtered is non-empty"
      | none =>
        match select_one filtered with
        | some k => Except.ok k
        | none => Except.error "unreachable: filtered is non-empty"

/-- The selection step of `CoupledInjector.inject`
(`src/vuln_injector/injectors.py`): `valid_sets` is the list of
(injection-set, template-name) combinations surviving
`_filter_by_template`, here abstracted to (set id, template name); when a
template name is given, `matching` keeps the combinations carrying that
name and the code falls back to `select_one(valid_sets)` when `matching`
is empty. -/
def coupled_select (valid_sets : List (Nat × String))
    (template_name : Option String) : Option (Nat × String) :=
  match template_name with
  | some n =>
    let matching := valid_sets.filter fun t => t.2 == n
    if !matching.isEmpty then select_one matching else select_one valid_sets
  | none => select_one valid_sets

/-! ### Name generation (`src/vuln_injector/templates/point_injection.py`)

`random.choice(POOL)` draws are modelled by a stream `draws : Nat → String`
(the i-th call of `generator_func` returns `draws i`), and the
`random.randint(1, 999)` of the fallback by `fallback_suffix`.  The
`existing_names` set is modelled as a list with membership. -/

/-- Name pool for the `uint` kind (`UINT_VAR_NAMES`), kept to state that
counterexample draw streams are realizable by `random.choice`. -/
def UINT_VAR_NAMES : List String :=
  ["amount", "value", "balance", "total", "count", "limit",
   "threshold", "allocation", "deposit", "fee", "reward"]

/-- The retry loop of `generate_unique_name`: `i` is the index of the next
draw, the second argument the remaining attempts.  When the attempts are
exhausted, the fallback draws once more (`base_name = generator_func()`)
and appends the numeric suffix without re-checking `existing_names`. -/
def gun_go (draws : Nat → String) (existing : List String)
    (fallback_suffix : Nat) : Nat → Nat → String
  | i, 0 => draws i ++ toString fallback_suffix
  | i, k + 1 =>
    if existing.contains (draws i) then
      gun_go draws existing fallback_suffix (i + 1) k
    else draws i

/-- `generate_unique_name(generator_func, existing_names, max_attempts)`. -/
def generate_unique_name (draws : Nat → String) (existing : List String)
    (max_attempts : Nat) (fallback_suffix : Nat) : String :=
  gun_go draws existing fallback_suffix 0 max_attempts

/-- Whether some draw within the attempt bound avoids `existing`, starting
at draw index `i` — the condition under which the retry loop of
`generate_unique_name` succeeds without the fallback. -/
def gun_found_go (draws : Nat → String) (existing : List String) :
    Nat → Nat → Bool
  | _, 0 => false
  | i, k + 1 =>
    !existing.contains (draws i) || gun_found_go draws existing (i + 1) k

/-- Success condition of the whole retry loop (draw indices `0..max-1`). -/
def gun_found (draws : Nat → String) (existing : List String)
    (max_attempts : Nat) : Bool :=
  gun_found_go draws existing 0 max_attempts

/-- The fixed kind order of `generate_var_names`: each declared kind in
`var_types` yields one placeholder. -/
def VAR_KINDS : List (String × String) :=
  [("addr", "var_addr"), ("uint", "var_uint"), ("mapping", "var_mapping"),
   ("bool", "var_bool"), ("time", "var_time")]

/-- The body of `generate_var_names`: walk the kinds in source order; for
each kind declared in `var_types`, generate a name against the current
`used` set (`existing_names` plus the names already chosen in this pass,
`used.add(name)`), with `max_attempts = 50`. -/
def gvn_go (var_types : List String) (draws : String → Nat → String)
    (suffixes : String → Nat) :
    List (String × String) → List String → List (String × String)
  | [], _ => []
  | (kind, placeholder) :: ks, used =>
    if var_types.contains kind then
      let name := generate_unique_name (draws kind) used 50 (suffixes kind)
      (placeholder, name) :: gvn_go var_types draws suffixes ks (name :: used)
    else gvn_go var_types draws suffixes ks used

/-- `generate_var_names(var_types, existing_names)` with the draw streams
made explicit: returns the placeholder-to-name association list. -/
def generate_var_names (var_types : List String) (existing_names : List String)
    (draws : String → Nat → String) (suffixes : String → Nat) :
    List (String × String) :=
  gvn_go var_types draws suffixes VAR_KINDS existing_names

/-- Whether every kind processed by `generate_var_names` finds a name
within the 50-attempt bound (so no kind hits the unchecked fallback),
computed along the same recursion as `gvn_go`. -/
def gvn_ok (var_types : List String) (draws : String → Nat → String)
    (suffixes : String → Nat) :
    List (String × String) → List String → Bool
  | [], _ => true
  | (kind, _) :: ks, used =>
    if var_types.contains kind then
      gun_found (draws kind) used 50 &&
        gvn_ok var_types draws suffixes ks
          (generate_unique_name (draws kind) used 50 (suffixes kind) :: used)
    else gvn_ok var_types draws suffixes ks used

/-! ### Indentation detection (`detect_indentation` in
`src/vuln_injector/utils.py`)

The Python function scans byte indices: it advances `next_line_start`
past the first newline at or after `offset`, then repeatedly takes the
bytes up to the next newline as the current line and jumps past that
newline.  That index loop visits exactly the newline-separated segments
of the remaining buffer, except that a final empty segment produced by a
trailing newline (or an empty remainder) is never visited, because the
loop guard `next_line_start < len(content)` fails first.  The line
iteration is therefore embedded as `processedLines`, and the per-line
body as the structurally recursive `detectLines`. -/

/-- Split on every newline, keeping empty segments (like
`splitOnDot`, for the newline separator). -/
def splitNl : List Char → List (List Char)
  | [] => [[]]
  | c :: rest =>
    if c = '\n' then [] :: splitNl rest
    else
      match splitNl rest with
      | [] => [[c]]
      | t :: ts => (c :: t) :: ts

/-- The lines the `while next_line_start < len(content)` loop of
`detect_indentation` actually visits: all newline-separated segments,
minus the final empty segment left after a trailing newline (or by an
empty buffer), which the loop guard excludes. -/
def processedLines (s : List Char) : List (List Char) :=
  match (splitNl s).getLast? with
  | some [] => (splitNl s).dropLast
  | _ => splitNl s

/-- Leading-indentation characters collected by the inner
`while ... line[pos:pos+1] in (b' ', b'\t')` loop. -/
def isIndentChar (c : Char) : Bool :=
  c = ' ' || c = '\t'

/-- Python's `in` on byte strings: `pat` occurs as a contiguous
subsequence of `s`. -/
def containsSub (pat : List Char) : List Char → Bool
  | [] => pat.isEmpty
  | c :: rest => pat.isPrefixOf (c :: rest) || containsSub pat rest

/-- The genuine-code test of `detect_indentation` on a stripped line with
the current multiline-comment flag: non-blank, not inside a multiline
comment, and not starting with `//`, `/*` or `*`. -/
def lineIsGenuine (stripped : List Char) (inML : Bool) : Bool :=
  !stripped.isEmpty && !inML && !(['/', '/'].isPrefixOf stripped) &&
    !(['/', '*'].isPrefixOf stripped) && !(['*'].isPrefixOf stripped)

/-- The per-line loop body of `detect_indentation`: set the multiline
flag when the stripped line contains `/*`; a line containing `*/` clears
the flag and is skipped; a genuine code line returns its leading
whitespace — but only when that whitespace is non-empty, otherwise the
loop moves on; every other line is skipped.  When the lines run out the
default two-space indent is returned. -/
def detectLines : List (List Char) → Bool → List Char
  | [], _ => [' ', ' ']
  | line :: rest, inML =>
    let stripped := pyStrip line
    let inML2 := if containsSub ['/', '*'] stripped then true else inML
    if containsSub ['*', '/'] stripped then detectLines rest false
    else if lineIsGenuine stripped inML2 then
      let indent := line.takeWhile isIndentChar
      if indent.isEmpty then detectLines rest inML2 else indent
    else detectLines rest inML2

/-- The prologue of `detect_indentation`: the lines strictly after the
first newline at or after `offset`. -/
def linesAfterOffset (content : List Char) (offset : Nat) : List (List Char) :=
  processedLines
    (content.drop
      (offset + ((content.drop offset).takeWhile (fun c => c ≠ '\n')).length + 1))

/-- `detect_indentation(content, offset)` from `src/vuln_injector/utils.py`. -/
def detect_indentation (content : List Char) (offset : Nat) : List Char :=
  detectLines (linesAfterOffset content offset) false

/-- Each visited line paired with the multiline-comment flag in force
while that line is examined (the flag after the line's own `/*` check,
as in the source); a `*/` line resets the flag for the following lines. -/
def annotateML (inML : Bool) : List (List Char) → List (List Char × Bool)
  | [] => []
  | line :: rest =>
    let stripped := pyStrip line
    let inML2 := if containsSub ['/', '*'] stripped then true else inML
    let nextState := if containsSub ['*', '/'] stripped then false else inML2
    (line, inML2) :: annotateML nextState rest

/-- Claim C9's notion of the first genuine code line, on an annotated
line: not a `*/` line, non-blank, not a comment line, not inside a
multiline comment. -/
def claimCodeLine (li : List Char × Bool) : Bool :=
  !containsSub ['*', '/'] (pyStrip li.1) && lineIsGenuine (pyStrip li.1) li.2

/-- Claim C9, written from the spec's words: return the leading
whitespace of the first genuine code line found, or the fixed two-space
default when no such line exists. -/
def specDetectClaim (lines : List (List Char)) : List Char :=
  match (annotateML false lines).find? claimCodeLine with
  | some li => li.1.takeWhile isIndentChar
  | none => [' ', ' ']

/-- The amended notion: a genuine code line whose leading whitespace is
non-empty (the code passes over genuine code lines at column zero). -/
def claimCodeLineIndented (li : List Char × Bool) : Bool :=
  claimCodeLine li && !(li.1.takeWhile isIndentChar).isEmpty

/-- Amended claim C9: return the leading whitespace of the first genuine
code line that has non-empty leading whitespace, or the two-space
default. -/
def specDetectAmended (lines : List (List Char)) : List Char :=
  match (annotateML false lines).find? claimCodeLineIndented with
  | some li => li.1.takeWhile isIndentChar
  | none => [' ', ' ']

/-! ### Properties of the splicing engine -/

/-- Each insertion step grows the buffer by exactly the payload length,
because Python slices clamp; so the loop produces a buffer of the
original length plus the total payload length. -/
theorem applyLoop_fst_length (ps : List InjectionPayload) :
    ∀ (B : List Nat) (regs : List InjectedRegion),
      (applyLoop ps B regs).1.length = B.length + sumLen ps := by
  induction ps with
  | nil => intro B regs; simp [applyLoop, sumLen]
  | cons p rest ih =>
    intro B regs
    simp only [applyLoop]
    rw [ih]
    simp only [List.length_append, List.length_take, List.length_drop, sumLen,
      List.map_cons, List.sum_cons]
    omega

/-- The loop appends exactly the regions described by `mkRegions`. -/
theorem applyLoop_snd (ps : List InjectionPayload) :
    ∀ (B : List Nat) (regs : List InjectedRegion),
      (applyLoop ps B regs).2 = regs ++ mkRegions ps := by
  induction ps with
  | nil => intro B regs; simp [applyLoop, mkRegions]
  | cons p rest ih =>
    intro B regs
    simp only [applyLoop, mkRegions]
    rw [ih]
    simp

/-- Splicing `w` at an offset `op` at or below `o` shifts the suffix that
started at `o` by exactly `w.length`. -/
theorem insert_drop (B w : List Nat) (op o : Nat) (h1 : op ≤ o)
    (h2 : o ≤ B.length) :
    (B.take op ++ w ++ B.drop op).drop (o + w.length) = B.drop o := by
  rw [List.append_assoc, List.drop_append_eq_append_drop,
    List.drop_append_eq_append_drop]
  have hlt : (B.take op).length = op := by
    rw [List.length_take]; omega
  have e1 : (B.take op).drop (o + w.length) = [] := by
    apply List.drop_eq_nil_of_le; omega
  have e2 : w.drop (o + w.length - (B.take op).length) = [] := by
    apply List.drop_eq_nil_of_le; omega
  rw [e1, e2, hlt, List.drop_drop]
  simp only [List.nil_append]
  congr 1
  omega

/-- All remaining insertions happen at offsets at most `o`, so the final
buffer's suffix at `o + sumLen ps` is the current buffer's suffix at `o`. -/
theorem applyLoop_fst_drop (ps : List InjectionPayload) :
    ∀ (B : List Nat) (o : Nat) (regs : List InjectedRegion),
      (∀ q ∈ ps, q.offset ≤ o) → o ≤ B.length →
      (applyLoop ps B regs).1.drop (o + sumLen ps) = B.drop o := by
  induction ps with
  | nil => intro B o regs _ _; simp [applyLoop, sumLen]
  | cons p rest ih =>
    intro B o regs hofs hlen
    simp only [applyLoop]
    have hrec := ih (B.take p.offset ++ p.content ++ B.drop p.offset)
      (o + p.content.length)
      (regs ++ [⟨p.offset + sumLen rest, p.offset + sumLen rest + p.content.length,
        p.component_name, "Injected " ++ p.component_name ++ " code"⟩])
      (fun q hq => le_trans (hofs q (List.mem_cons_of_mem p hq)) (Nat.le_add_right o _))
      (by simp only [List.length_append, List.length_take, List.length_drop]; omega)
    have harith : o + sumLen (p :: rest) = o + p.content.length + sumLen rest := by
      simp only [sumLen, List.map_cons, List.sum_cons]; omega
    rw [harith, hrec, insert_drop B p.content p.offset o
      (hofs p (List.mem_cons_self p rest)) hlen]

/-- For a strictly-descending payload list whose offsets fit in the
buffer, slicing the final buffer at each payload's recorded region gives
back exactly that payload's bytes. -/
theorem applyLoop_slices (ps : List InjectionPayload) :
    ∀ (B : List Nat) (regs : List InjectedRegion),
      ps.Pairwise (fun p q => q.offset < p.offset) →
      (∀ p ∈ ps, p.offset ≤ B.length) →
      ∀ pr ∈ ps.zip (mkRegions ps),
        ((applyLoop ps B regs).1.drop pr.2.start_byte).take
            (pr.2.end_byte - pr.2.start_byte) = pr.1.content := by
  induction ps with
  | nil => intro B regs _ _ pr hpr; simp [mkRegions] at hpr
  | cons p rest ih =>
    intro B regs hsorted hle pr hpr
    have hped : p.offset ≤ B.length := hle p (List.mem_cons_self p rest)
    simp only [mkRegions, List.zip_cons_cons, List.mem_cons] at hpr
    rcases hpr with hhead | htail
    · subst hhead
      simp only [applyLoop]
      have hdesc : ∀ q ∈ rest, q.offset ≤ p.offset :=
        fun q hq => Nat.le_of_lt ((List.pairwise_cons.mp hsorted).1 q hq)
      have hdrop := applyLoop_fst_drop rest
        (B.take p.offset ++ p.content ++ B.drop p.offset) p.offset
        (regs ++ [⟨p.offset + sumLen rest, p.offset + sumLen rest + p.content.length,
          p.component_name, "Injected " ++ p.component_name ++ " code"⟩])
        hdesc
        (by simp only [List.length_append, List.length_take, List.length_drop]; omega)
      have harith : p.offset + sumLen rest + p.content.length -
          (p.offset + sumLen rest) = p.content.length := by omega
      rw [harith, hdrop]
      have htk : (B.take p.offset).length = p.offset := by
        rw [List.length_take]; omega
      have e1 : (B.take p.offset).drop p.offset = [] :=
        List.drop_eq_nil_of_le (by omega)
      rw [List.append_assoc, List.drop_append_eq_append_drop, e1, htk,
        Nat.sub_self, List.drop_zero, List.nil_append,
        List.take_append_eq_append_take, List.take_length, Nat.sub_self,
        List.take_zero, List.append_nil]
    · have hsorted' := (List.pairwise_cons.mp hsorted).2
      have hle' : ∀ q ∈ rest, q.offset ≤
          (B.take p.offset ++ p.content ++ B.drop p.offset).length := by
        intro q hq
        have := hle q (List.mem_cons_of_mem p hq)
        simp only [List.length_append, List.length_take, List.length_drop]
        omega
      simpa only [applyLoop] using
        ih (B.take p.offset ++ p.content ++ B.drop p.offset)
          (regs ++ [⟨p.offset + sumLen rest, p.offset + sumLen rest + p.content.length,
            p.component_name, "Injected " ++ p.component_name ++ " code"⟩])
          hsorted' hle' pr htail

/-- Structural facts about the recorded regions: the list has one entry
per payload, each of width equal to the payload's content length. -/
theorem mkRegions_width (ps : List InjectionPayload) :
    ∀ pr ∈ ps.zip (mkRegions ps),
      pr.2.end_byte - pr.2.start_byte = pr.1.content.length := by
  induction ps with
  | nil => intro pr hpr; simp [mkRegions] at hpr
  | cons p rest ih =>
    intro pr hpr
    simp only [mkRegions, List.zip_cons_cons, List.mem_cons] at hpr
    rcases hpr with hhead | htail
    · subst hhead; simp
    · exact ih pr htail

/-- `mkRegions` yields one region per payload. -/
theorem mkRegions_length (ps : List InjectionPayload) :
    (mkRegions ps).length = ps.length := by
  induction ps with
  | nil => simp [mkRegions]
  | cons p rest ih => simp [mkRegions, ih]

/-- The internal sort is a permutation of the input payload list. -/
theorem sortPayloadsDesc_perm (ps : List InjectionPayload) :
    (sortPayloadsDesc ps).Perm ps :=
  List.perm_insertionSort payloadDescOrder ps

/-- The internal sort puts the payloads in non-increasing offset order. -/
theorem sortPayloadsDesc_sorted (ps : List InjectionPayload) :
    (sortPayloadsDesc ps).Pairwise payloadDescOrder :=
  List.sorted_insertionSort payloadDescOrder ps

/-- With pairwise-distinct offsets the sorted order is strictly
decreasing. -/
theorem sortPayloadsDesc_strict (ps : List InjectionPayload)
    (h : (ps.map fun p => p.offset).Nodup) :
    (sortPayloadsDesc ps).Pairwise fun p q => q.offset < p.offset := by
  have hperm := sortPayloadsDesc_perm ps
  have hnd : ((sortPayloadsDesc ps).map fun p => p.offset).Nodup :=
    (hperm.symm.map fun p => p.offset).nodup h
  have hp1 : (sortPayloadsDesc ps).Pairwise fun p q => p.offset ≠ q.offset :=
    List.pairwise_map.mp hnd
  have hp2 := sortPayloadsDesc_sorted ps
  exact (hp2.and hp1).imp fun h => by
    have h1 := h.1
    have h2 := h.2
    unfold payloadDescOrder at h1
    omega

/-- Claim C1 (offset correctness of the splicing engine): for payloads
with pairwise-distinct offsets into a buffer of length `L` — the empty
list included — the output buffer length is `L` plus the total payload
content length, one region is recorded per payload, and slicing the
output buffer at each payload's recorded `[start_byte, end_byte)` region
reproduces exactly that payload's inserted bytes (payloads are paired
with their regions in descending application order, a permutation of the
input list). -/
theorem C1_offset_correctness (payloads : List InjectionPayload)
    (content : List Nat)
    (hdist : (payloads.map fun p => p.offset).Nodup)
    (hle : ∀ p ∈ payloads, p.offset ≤ content.length) :
    (apply_payloads payloads content).1.length
        = content.length + (payloads.map fun p => p.content.length).sum ∧
      (apply_payloads payloads content).2.length = payloads.length ∧
      (sortPayloadsDesc payloads).Perm payloads ∧
      ∀ pr ∈ (sortPayloadsDesc payloads).zip (apply_payloads payloads content).2,
        pr.2.end_byte - pr.2.start_byte = pr.1.content.length ∧
        ((apply_payloads payloads content).1.drop pr.2.start_byte).take
            (pr.2.end_byte - pr.2.start_byte) = pr.1.content := by
  have hperm := sortPayloadsDesc_perm payloads
  have hsum : sumLen (sortPayloadsDesc payloads) = sumLen payloads := by
    unfold sumLen
    exact (hperm.map fun p => p.content.length).sum_eq
  have hsnd : (apply_payloads payloads content).2
      = mkRegions (sortPayloadsDesc payloads) := by
    unfold apply_payloads
    rw [applyLoop_snd]
    simp
  refine ⟨?_, ?_, hperm, ?_⟩
  · unfold apply_payloads
    rw [applyLoop_fst_length, hsum]
    rfl
  · rw [hsnd, mkRegions_length, hperm.length_eq]
  · intro pr hpr
    rw [hsnd] at hpr
    have hstrict := sortPayloadsDesc_strict payloads hdist
    have hle' : ∀ p ∈ sortPayloadsDesc payloads, p.offset ≤ content.length :=
      fun p hp => hle p (hperm.mem_iff.mp hp)
    exact ⟨mkRegions_width _ pr hpr,
      applyLoop_slices _ content [] hstrict hle' pr hpr⟩

/-- Witness for C1 at a concrete input: two payloads at offsets 2 and 5
into a six-byte buffer. -/
theorem C1_offset_correctness_witness :
    ((([⟨2, [104, 105], "state"⟩, ⟨5, [33], "vulnerable_code"⟩] :
        List InjectionPayload).map fun p => p.offset).Nodup) ∧
      (apply_payloads
          [⟨2, [104, 105], "state"⟩, ⟨5, [33], "vulnerable_code"⟩]
          [10, 11, 12, 13, 14, 15]).1.length
        = ([10, 11, 12, 13, 14, 15] : List Nat).length +
            (([⟨2, [104, 105], "state"⟩, ⟨5, [33], "vulnerable_code"⟩] :
              List InjectionPayload).map fun p => p.content.length).sum :=
  ⟨by decide,
    (C1_offset_correctness
      [⟨2, [104, 105], "state"⟩, ⟨5, [33], "vulnerable_code"⟩]
      [10, 11, 12, 13, 14, 15] (by decide) (by decide)).1⟩

/-- In a strictly-descending payload list, each payload's recorded start
byte is its offset plus the total length of the payloads at strictly
lower offsets (which form exactly the remaining suffix). -/
theorem mkRegions_start (ps : List InjectionPayload)
    (hsorted : ps.Pairwise fun p q => q.offset < p.offset) :
    ∀ pr ∈ ps.zip (mkRegions ps),
      pr.2.start_byte
        = pr.1.offset + sumLen (ps.filter fun q => decide (q.offset < pr.1.offset)) := by
  induction ps with
  | nil => intro pr hpr; simp [mkRegions] at hpr
  | cons p rest ih =>
    intro pr hpr
    have hhd := (List.pairwise_cons.mp hsorted).1
    simp only [mkRegions, List.zip_cons_cons, List.mem_cons] at hpr
    rcases hpr with hhead | htail
    · subst hhead
      simp only [List.filter_cons, decide_eq_true_eq]
      rw [if_neg (by omega)]
      have hrest : rest.filter (fun q => decide (q.offset < p.offset)) = rest :=
        List.filter_eq_self.mpr fun q hq => by simpa using hhd q hq
      rw [hrest]
    · obtain ⟨a, b⟩ := pr
      have hmem : a ∈ rest := (List.of_mem_zip htail).1
      have := ih (List.pairwise_cons.mp hsorted).2 ⟨a, b⟩ htail
      rw [this]
      simp only [List.filter_cons, decide_eq_true_eq]
      rw [if_neg (by have := hhd a hmem; omega)]

/-- Counterexample to claim C2, the spec's own Scenario C input: payload
lengths 10 and 25 at offsets 100 and 40 of a 100-byte buffer.  The code
records start byte 40 for the payload at offset 40, while offset plus the
total length of the fragments at strictly higher offsets is 40 + 10 = 50. -/
theorem C2_counterexample :
    ((apply_payloads
        [⟨100, List.replicate 10 120, "vulnerable_code"⟩,
         ⟨40, List.replicate 25 121, "state"⟩]
        (List.replicate 100 48)).2.map fun r => r.start_byte) = [125, 40] ∧
      claimedStartHigher
        [⟨100, List.replicate 10 120, "vulnerable_code"⟩,
         ⟨40, List.replicate 25 121, "state"⟩]
        ⟨40, List.replicate 25 121, "state"⟩ = 50 ∧
      (40 : Nat) ≠ 50 := by
  refine ⟨by decide, by decide, by decide⟩

/-- Amended claim C2: for pairwise-distinct offsets, each payload's
recorded start byte is its original offset plus the total length of all
fragments inserted at strictly lower offsets (those are the fragments
that precede it in the final buffer). -/
theorem C2_amended (payloads : List InjectionPayload) (content : List Nat)
    (hdist : (payloads.map fun p => p.offset).Nodup) :
    ∀ pr ∈ (sortPayloadsDesc payloads).zip (apply_payloads payloads content).2,
      pr.2.start_byte
        = pr.1.offset +
            sumLen (payloads.filter fun q => decide (q.offset < pr.1.offset)) := by
  intro pr hpr
  have hperm := sortPayloadsDesc_perm payloads
  have hsnd : (apply_payloads payloads content).2
      = mkRegions (sortPayloadsDesc payloads) := by
    unfold apply_payloads
    rw [applyLoop_snd]
    simp
  rw [hsnd] at hpr
  have := mkRegions_start (sortPayloadsDesc payloads)
    (sortPayloadsDesc_strict payloads hdist) pr hpr
  rw [this]
  congr 1
  unfold sumLen
  exact ((hperm.filter _).map fun p => p.content.length).sum_eq

/-- Witness for the amended C2 at the Scenario C input. -/
theorem C2_amended_witness :
    ((([⟨100, List.replicate 10 120, "vulnerable_code"⟩,
        ⟨40, List.replicate 25 121, "state"⟩] :
        List InjectionPayload).map fun p => p.offset).Nodup) ∧
      (∀ pr ∈ (sortPayloadsDesc
            [⟨100, List.replicate 10 120, "vulnerable_code"⟩,
             ⟨40, List.replicate 25 121, "state"⟩]).zip
          (apply_payloads
            [⟨100, List.replicate 10 120, "vulnerable_code"⟩,
             ⟨40, List.replicate 25 121, "state"⟩]
            (List.replicate 100 48)).2,
        pr.2.start_byte
          = pr.1.offset +
              sumLen (([⟨100, List.replicate 10 120, "vulnerable_code"⟩,
                 ⟨40, List.replicate 25 121, "state"⟩] :
                 List InjectionPayload).filter
                  fun q => decide (q.offset < pr.1.offset))) :=
  ⟨by decide, C2_amended _ _ (by decide)⟩

/-- Counterexample to claim C3: two payloads sharing offset 1 are not
rejected — both are spliced into the buffer and both are recorded in the
metadata. -/
theorem C3_counterexample :
    (apply_payloads [⟨1, [120], "state"⟩, ⟨1, [121], "vulnerable_code"⟩]
        [97, 98, 99]).1 = [97, 121, 120, 98, 99] ∧
      (apply_payloads [⟨1, [120], "state"⟩, ⟨1, [121], "vulnerable_code"⟩]
          [97, 98, 99]).2.length = 2 ∧
      ([97, 121, 120, 98, 99] : List Nat) ≠ [97, 98, 99] :=
  ⟨by decide, by decide, by decide⟩

/-- Amended claim C3: the splicing engine performs no duplicate-offset
check — for every payload list, lists with duplicated offsets included,
every payload is spliced (the output buffer grows by the full content
sum) and one metadata region is recorded per payload; no rejection path
exists. -/
theorem C3_amended (payloads : List InjectionPayload) (content : List Nat) :
    (apply_payloads payloads content).1.length
        = content.length + (payloads.map fun p => p.content.length).sum ∧
      (apply_payloads payloads content).2.length = payloads.length := by
  have hperm := sortPayloadsDesc_perm payloads
  have hsum : sumLen (sortPayloadsDesc payloads) = sumLen payloads := by
    unfold sumLen
    exact (hperm.map fun p => p.content.length).sum_eq
  constructor
  · unfold apply_payloads
    rw [applyLoop_fst_length, hsum]
    rfl
  · unfold apply_payloads
    rw [applyLoop_snd]
    simp [mkRegions_length, hperm.length_eq]

/-- Claim C4 (order independence): with pairwise-distinct offsets, the
sorted payload list — and hence the whole output of the splicing engine,
buffer and regions alike — is the same for every input ordering of the
payload set. -/
theorem C4_order_independence (ps₁ ps₂ : List InjectionPayload)
    (content : List Nat) (hperm : ps₁.Perm ps₂)
    (hdist : (ps₁.map fun p => p.offset).Nodup) :
    apply_payloads ps₁ content = apply_payloads ps₂ content := by
  have hdist₂ : (ps₂.map fun p => p.offset).Nodup :=
    (hperm.map fun p => p.offset).nodup hdist
  have hs₁ := sortPayloadsDesc_strict ps₁ hdist
  have hs₂ := sortPayloadsDesc_strict ps₂ hdist₂
  have hp : (sortPayloadsDesc ps₁).Perm (sortPayloadsDesc ps₂) :=
    (sortPayloadsDesc_perm ps₁).trans (hperm.trans (sortPayloadsDesc_perm ps₂).symm)
  have heq : sortPayloadsDesc ps₁ = sortPayloadsDesc ps₂ :=
    List.eq_of_perm_of_sorted hp hs₁ hs₂
  unfold apply_payloads
  rw [heq]

/-- Witness for C4 at a concrete input: the same two payloads in both
orders. -/
theorem C4_order_independence_witness :
    (([⟨5, [1], "state"⟩, ⟨2, [2, 3], "vulnerable_code"⟩] :
        List InjectionPayload).Perm
      [⟨2, [2, 3], "vulnerable_code"⟩, ⟨5, [1], "state"⟩]) ∧
      apply_payloads [⟨5, [1], "state"⟩, ⟨2, [2, 3], "vulnerable_code"⟩]
          [7, 7, 7, 7, 7, 7]
        = apply_payloads [⟨2, [2, 3], "vulnerable_code"⟩, ⟨5, [1], "state"⟩]
            [7, 7, 7, 7, 7, 7] :=
  ⟨by decide, C4_order_independence _ _ _ (by decide) (by decide)⟩

/-- Every region recorded for a payload list whose offsets lie strictly
below `B` starts strictly below `B` plus the list's total content
length. -/
theorem mkRegions_start_lt (ps : List InjectionPayload) :
    ∀ (B : Nat), (∀ p ∈ ps, p.offset < B) →
      ∀ r ∈ mkRegions ps, r.start_byte < B + sumLen ps := by
  induction ps with
  | nil => intro B _ r hr; simp [mkRegions] at hr
  | cons p rest ih =>
    intro B hlt r hr
    simp only [mkRegions, List.mem_cons] at hr
    have hsum : sumLen (p :: rest) = p.content.length + sumLen rest := by
      simp [sumLen]
    rcases hr with hhead | htail
    · subst hhead
      have := hlt p (List.mem_cons_self p rest)
      simp only [hsum]
      omega
    · have := ih B (fun q hq => hlt q (List.mem_cons_of_mem p hq)) r htail
      omega

/-- For strictly-descending payload lists the recorded region list has
strictly decreasing start bytes. -/
theorem mkRegions_decreasing (ps : List InjectionPayload)
    (hsorted : ps.Pairwise fun p q => q.offset < p.offset) :
    (mkRegions ps).Pairwise fun r1 r2 => r2.start_byte < r1.start_byte := by
  induction ps with
  | nil => simp [mkRegions]
  | cons p rest ih =>
    have hhd := (List.pairwise_cons.mp hsorted).1
    simp only [mkRegions, List.pairwise_cons]
    refine ⟨fun r hr => ?_, ih (List.pairwise_cons.mp hsorted).2⟩
    exact mkRegions_start_lt rest p.offset hhd r hr

/-- Claim C10: for pairwise-distinct offsets, the `injected_regions` list
recorded by the splicing engine is ordered by strictly decreasing
`start_byte` — the descending-offset application order, not the document
order of the insertion points. -/
theorem C10_regions_descending (payloads : List InjectionPayload)
    (content : List Nat)
    (hdist : (payloads.map fun p => p.offset).Nodup) :
    ((apply_payloads payloads content).2).Pairwise
      fun r1 r2 => r2.start_byte < r1.start_byte := by
  have hsnd : (apply_payloads payloads content).2
      = mkRegions (sortPayloadsDesc payloads) := by
    unfold apply_payloads
    rw [applyLoop_snd]
    simp
  rw [hsnd]
  exact mkRegions_decreasing _ (sortPayloadsDesc_strict payloads hdist)

/-- Witness for C10 at a concrete input: three payloads given in document
order produce regions with strictly decreasing start bytes. -/
theorem C10_regions_descending_witness :
    ((([⟨0, [1], "state"⟩, ⟨3, [2, 2], "setter"⟩, ⟨4, [3], "executor"⟩] :
        List InjectionPayload).map fun p => p.offset).Nodup) ∧
      ((apply_payloads
          [⟨0, [1], "state"⟩, ⟨3, [2, 2], "setter"⟩, ⟨4, [3], "executor"⟩]
          [9, 9, 9, 9, 9]).2).Pairwise
        (fun r1 r2 => r2.start_byte < r1.start_byte) :=
  ⟨by decide, C10_regions_descending _ _ (by decide)⟩

/-! ### Properties of the version-compatibility test -/

/-- On three-component tuples, Python's tuple comparison is exactly
lexicographic comparison of (major, minor, patch). -/
theorem tupleLE_triple (a b c a' b' c' : Nat) :
    tupleLE [a, b, c] [a', b', c'] = true ↔
      specTripleLE (a, b, c) (a', b', c') := by
  simp only [tupleLE, specTripleLE]
  split_ifs <;> simp <;> omega

/-- Strictly-below rules out at-least in the triple order. -/
theorem specTripleLT_not_le (x y : Nat × Nat × Nat) (h : specTripleLT x y) :
    ¬ specTripleLE y x := by
  obtain ⟨x1, x2, x3⟩ := x
  obtain ⟨y1, y2, y3⟩ := y
  unfold specTripleLT at h
  unfold specTripleLE
  simp only at *
  omega

/-- Claim C5: whenever the three version strings each parse (after
prefix-stripping) to a full (major, minor, patch) component list,
`is_version_compatible` holds exactly when the parsed version lies in the
inclusive interval `[min_version, max_version]` under lexicographic
comparison; in particular a version strictly below `min_version` or
strictly above `max_version` is never compatible. -/
theorem C5_version_compatibility (v mn mx : List Char)
    (va vb vc ma mb mc xa xb xc : Nat)
    (hv : parse_version v = [va, vb, vc])
    (hmn : parse_version mn = [ma, mb, mc])
    (hmx : parse_version mx = [xa, xb, xc]) :
    (is_version_compatible v mn mx = true ↔
      (specTripleLE (ma, mb, mc) (va, vb, vc) ∧
        specTripleLE (va, vb, vc) (xa, xb, xc))) ∧
      (specTripleLT (va, vb, vc) (ma, mb, mc) →
        is_version_compatible v mn mx = false) ∧
      (specTripleLT (xa, xb, xc) (va, vb, vc) →
        is_version_compatible v mn mx = false) := by
  unfold is_version_compatible
  rw [hv, hmn, hmx]
  refine ⟨?_, ?_, ?_⟩
  · rw [Bool.and_eq_true, tupleLE_triple, tupleLE_triple]
  · intro hlt
    have h1 := specTripleLT_not_le _ _ hlt
    have h2 : tupleLE [ma, mb, mc] [va, vb, vc] = false := by
      rw [Bool.eq_false_iff]
      intro hcon
      exact h1 ((tupleLE_triple _ _ _ _ _ _).mp hcon)
    rw [h2, Bool.false_and]
  · intro hlt
    have h1 := specTripleLT_not_le _ _ hlt
    have h2 : tupleLE [va, vb, vc] [xa, xb, xc] = false := by
      rw [Bool.eq_false_iff]
      intro hcon
      exact h1 ((tupleLE_triple _ _ _ _ _ _).mp hcon)
    rw [h2, Bool.and_false]

/-- Witness for C5 at concrete version strings, including a `^` prefix
to strip. -/
theorem C5_version_compatibility_witness :
    (parse_version "^0.8.10".data = [0, 8, 10] ∧
        parse_version "0.4.0".data = [0, 4, 0] ∧
        parse_version "0.9.99".data = [0, 9, 99]) ∧
      ((is_version_compatible "^0.8.10".data "0.4.0".data "0.9.99".data = true ↔
          (specTripleLE (0, 4, 0) (0, 8, 10) ∧
            specTripleLE (0, 8, 10) (0, 9, 99))) ∧
        (specTripleLT (0, 8, 10) (0, 4, 0) →
          is_version_compatible "^0.8.10".data "0.4.0".data "0.9.99".data = false) ∧
        (specTripleLT (0, 9, 99) (0, 8, 10) →
          is_version_compatible "^0.8.10".data "0.4.0".data "0.9.99".data = false)) :=
  ⟨⟨by decide, by decide, by decide⟩,
    C5_version_compatibility "^0.8.10".data "0.4.0".data "0.9.99".data
      0 8 10 0 4 0 0 9 99 (by decide) (by decide) (by decide)⟩

/-! ### Properties of cross-function discovery -/

/-- Claim C7: cross-function discovery returns exactly the
(setter, executor) pairs of functions with distinct ids from the same
concrete contract where both are externally callable and state-modifying,
the setter has at least one parameter and the executor is payable or
parameterless; and each concrete contract with `m` eligible setters and
`n` eligible executors contributes at most `m * n` sets. -/
theorem C7_cross_function_discovery (contracts : List ContractInfo) :
    (∀ x : CoupledInjectionSet,
      x ∈ find_locations contracts ↔
        (x.contract ∈ contracts ∧ x.contract.is_concrete_contract = true ∧
          x.setter ∈ x.contract.functions ∧ x.executor ∈ x.contract.functions ∧
          x.setter.is_public_or_external = true ∧
          x.setter.is_state_modifying = true ∧ x.setter.has_params = true ∧
          x.executor.is_public_or_external = true ∧
          x.executor.is_state_modifying = true ∧
          (x.executor.is_payable = true ∨ x.executor.has_params = false) ∧
          x.setter.id ≠ x.executor.id)) ∧
      (∀ c ∈ contracts,
        (contract_pairs c).length ≤
          (setter_candidates c.functions).length *
            (executor_candidates c.functions).length) := by
  constructor
  · intro x
    obtain ⟨xc, xs, xe⟩ := x
    unfold find_locations
    simp only [List.mem_flatMap]
    constructor
    · rintro ⟨c, hc, hx⟩
      by_cases hconc : c.is_concrete_contract
      · unfold contract_pairs at hx
        rw [if_pos hconc] at hx
        unfold setter_candidates executor_candidates at hx
        simp only [List.mem_flatMap, List.mem_map, List.mem_filter,
          Bool.and_eq_true, bne_iff_ne] at hx
        obtain ⟨s, ⟨hs_mem, ⟨hs1, hs2⟩, hs3⟩, e, ⟨⟨he_mem, ⟨he1, he2⟩, he3⟩, hne⟩, heq⟩ := hx
        cases heq
        exact ⟨hc, hconc, hs_mem, he_mem, hs1, hs2, hs3, he1, he2,
          by simpa using he3, hne⟩
      · unfold contract_pairs at hx
        rw [if_neg hconc] at hx
        simp at hx
    · rintro ⟨hc, hconc, hsmem, hemem, hs1, hs2, hs3, he1, he2, he3, hne⟩
      refine ⟨xc, hc, ?_⟩
      unfold contract_pairs
      rw [if_pos hconc]
      unfold setter_candidates executor_candidates
      simp only [List.mem_flatMap, List.mem_map, List.mem_filter,
        Bool.and_eq_true, bne_iff_ne]
      exact ⟨xs, ⟨hsmem, ⟨hs1, hs2⟩, hs3⟩, xe, ⟨⟨hemem, ⟨he1, he2⟩,
        by simpa using he3⟩, hne⟩, rfl⟩
  · intro c _
    unfold contract_pairs
    by_cases hconc : c.is_concrete_contract
    · rw [if_pos hconc, List.length_flatMap]
      have hbound : ∀ k ∈ (setter_candidates c.functions).map
          (List.length ∘ fun setter =>
            ((executor_candidates c.functions).filter fun executor =>
                setter.id != executor.id).map
              fun executor => (⟨c, setter, executor⟩ : CoupledInjectionSet)),
          k ≤ (executor_candidates c.functions).length := by
        intro k hk
        simp only [List.mem_map, Function.comp] at hk
        obtain ⟨s, _, hk⟩ := hk
        subst hk
        rw [List.length_map]
        exact List.length_filter_le _ _
      calc ((setter_candidates c.functions).map _).sum
          ≤ ((setter_candidates c.functions).map
              (List.length ∘ fun setter =>
                ((executor_candidates c.functions).filter fun executor =>
                    setter.id != executor.id).map
                  fun executor => (⟨c, setter, executor⟩ : CoupledInjectionSet))).length •
            (executor_candidates c.functions).length :=
            List.sum_le_card_nsmul _ _ hbound
        _ = (setter_candidates c.functions).length *
              (executor_candidates c.functions).length := by
            rw [List.length_map, smul_eq_mul]
    · rw [if_neg hconc]
      simp

/-- Witness for C7: a one-contract tree with a `set(address)` setter and
a payable parameterless `pay()` executor yields the pair. -/
theorem C7_cross_function_discovery_witness :
    (⟨⟨0, "Wallet", "contract",
        [⟨1, "set", "public", "nonpayable", false, ["address"], true⟩,
         ⟨2, "pay", "public", "payable", true, [], false⟩]⟩,
      ⟨1, "set", "public", "nonpayable", false, ["address"], true⟩,
      ⟨2, "pay", "public", "payable", true, [], false⟩⟩ : CoupledInjectionSet) ∈
      find_locations
        [⟨0, "Wallet", "contract",
          [⟨1, "set", "public", "nonpayable", false, ["address"], true⟩,
           ⟨2, "pay", "public", "payable", true, [], false⟩]⟩] :=
  ((C7_cross_function_discovery _).1 _).mpr (by decide)

/-! ### Properties of template selection -/

/-- Counterexample to claim C8: a caller-named template that is not among
the version-compatible names (point path), or matches no valid
combination (coupled path), is silently replaced by another template —
no failure is reported. -/
theorem C8_counterexample :
    point_generate_select ["reentrancy_basic"] (fun _ => true)
        (some "tod_transfer") = Except.ok "reentrancy_basic" ∧
      coupled_select [(0, "tod_transfer_legacy")] (some "tod_amount")
        = some (0, "tod_transfer_legacy") ∧
      ("reentrancy_basic" : String) ≠ "tod_transfer" ∧
      ("tod_transfer_legacy" : String) ≠ "tod_amount" :=
  ⟨rfl, rfl, by decide, by decide⟩

/-- Amended claim C8: a caller-named template that is version-compatible
but fails the location's structural requirements makes point generation
raise an error naming the template (no substitution); but a caller-named
template outside the version-compatible set is silently replaced by the
first requirement-satisfying template, and the coupled path silently
replaces any name matching no valid (set, template) combination by the
first valid combination; a name with matching combinations selects the
first of them. -/
theorem C8_amended (compatible : List String) (req : String → Bool)
    (n : String) (valid_sets : List (Nat × String)) :
    (n ∈ compatible.filter req →
        point_generate_select compatible req (some n) = Except.ok n) ∧
      (n ∈ compatible → req n = false → compatible.filter req ≠ [] →
        point_generate_select compatible req (some n)
          = Except.error
              ("Template " ++ n ++ " is incompatible with function (state mutability)")) ∧
      (n ∉ compatible → compatible.filter req ≠ [] →
        point_generate_select compatible req (some n)
          = Except.ok ((compatible.filter req).headD "")) ∧
      ((valid_sets.filter fun t => t.2 == n) = [] → valid_sets ≠ [] →
        coupled_select valid_sets (some n) = valid_sets.head?) ∧
      ((valid_sets.filter fun t => t.2 == n) ≠ [] →
        coupled_select valid_sets (some n)
          = (valid_sets.filter fun t => t.2 == n).head?) := by
  refine ⟨?_, ?_, ?_, ?_, ?_⟩
  · intro hmem
    have hc : n ∈ compatible := (List.mem_filter.mp hmem).1
    have hce : compatible.isEmpty = false :=
      List.isEmpty_eq_false.mpr (List.ne_nil_of_mem hc)
    have hfe : (compatible.filter req).isEmpty = false :=
      List.isEmpty_eq_false.mpr (List.ne_nil_of_mem hmem)
    unfold point_generate_select
    rw [hce]
    simp only [Bool.false_eq_true, if_false, hfe]
    rw [if_pos (List.elem_eq_true_of_mem hmem)]
  · intro hc hreq hfne
    have hce : compatible.isEmpty = false :=
      List.isEmpty_eq_false.mpr (List.ne_nil_of_mem hc)
    have hfe : (compatible.filter req).isEmpty = false :=
      List.isEmpty_eq_false.mpr hfne
    have hnf : n ∉ compatible.filter req := by
      intro hmem
      have := (List.mem_filter.mp hmem).2
      rw [hreq] at this
      exact Bool.false_ne_true this
    unfold point_generate_select
    rw [hce]
    simp only [Bool.false_eq_true, if_false, hfe]
    rw [if_neg (by simp [hnf]), if_pos (List.elem_eq_true_of_mem hc)]
  · intro hnc hfne
    have hce : compatible.isEmpty = false := by
      rw [List.isEmpty_eq_false]
      intro hnil
      apply hfne
      rw [hnil, List.filter_nil]
    have hfe : (compatible.filter req).isEmpty = false :=
      List.isEmpty_eq_false.mpr hfne
    have hnf : n ∉ compatible.filter req := fun hmem =>
      hnc (List.mem_filter.mp hmem).1
    unfold point_generate_select select_one
    rw [hce]
    simp only [Bool.false_eq_true, if_false, hfe]
    rw [if_neg (by simp [hnf]), if_neg (by simp [hnc])]
    obtain ⟨x, xs, hx⟩ : ∃ x xs, compatible.filter req = x :: xs := by
      cases hcf : compatible.filter req with
      | nil => exact absurd hcf hfne
      | cons x xs => exact ⟨x, xs, rfl⟩
    rw [hx]
    rfl
  · intro hempty hne
    show (if (!(valid_sets.filter fun t => t.2 == n).isEmpty) = true
        then select_one (valid_sets.filter fun t => t.2 == n)
        else select_one valid_sets)
      = valid_sets.head?
    rw [hempty]
    simp [select_one]
  · intro hne
    show (if (!(valid_sets.filter fun t => t.2 == n).isEmpty) = true
        then select_one (valid_sets.filter fun t => t.2 == n)
        else select_one valid_sets)
      = (valid_sets.filter fun t => t.2 == n).head?
    rw [if_pos (by simpa [List.isEmpty_eq_false] using hne)]
    rfl

/-- Witness for the amended C8: concrete selections exercising the
error branch and both silent-substitution branches. -/
theorem C8_amended_witness :
    ("slow_setter" ∈ (["fast_setter", "slow_setter"] : List String) ∧
        (fun t => t == "fast_setter") "slow_setter" = false ∧
        (["fast_setter", "slow_setter"] : List String).filter
          (fun t => t == "fast_setter") ≠ []) ∧
      point_generate_select ["fast_setter", "slow_setter"]
          (fun t => t == "fast_setter") (some "slow_setter")
        = Except.error
            ("Template " ++ "slow_setter" ++
              " is incompatible with function (state mutability)") :=
  ⟨⟨by decide, by decide, by decide⟩,
    (C8_amended ["fast_setter", "slow_setter"] (fun t => t == "fast_setter")
        "slow_setter" []).2.1 (by decide) (by decide) (by decide)⟩

/-! ### Properties of name generation -/

/-- If some draw within the remaining attempts avoids `existing`, the
retry loop of `generate_unique_name` returns a name outside `existing`
(the unchecked fallback is not reached). -/
theorem gun_go_avoids (draws : Nat → String) (existing : List String)
    (fallback_suffix : Nat) :
    ∀ (k i : Nat), gun_found_go draws existing i k = true →
      existing.contains (gun_go draws existing fallback_suffix i k) = false := by
  intro k
  induction k with
  | zero => intro i h; simp [gun_found_go] at h
  | succ k ih =>
    intro i h
    unfold gun_go
    by_cases hc : existing.contains (draws i) = true
    · rw [if_pos hc]
      apply ih
      unfold gun_found_go at h
      rw [hc] at h
      simpa using h
    · rw [if_neg hc]
      simpa using hc

/-- Along the kind walk: when every processed kind finds a name within
the attempt bound, every produced name avoids the ambient `used` set and
the produced names are pairwise distinct. -/
theorem gvn_go_spec (var_types : List String) (draws : String → Nat → String)
    (suffixes : String → Nat) :
    ∀ (kinds : List (String × String)) (used : List String),
      gvn_ok var_types draws suffixes kinds used = true →
      (∀ pr ∈ gvn_go var_types draws suffixes kinds used,
          used.contains pr.2 = false) ∧
        ((gvn_go var_types draws suffixes kinds used).map fun pr => pr.2).Nodup := by
  intro kinds
  induction kinds with
  | nil => intro used _; simp [gvn_go]
  | cons kp ks ih =>
    intro used h
    obtain ⟨kind, placeholder⟩ := kp
    by_cases hk : var_types.contains kind = true
    · unfold gvn_ok at h
      rw [if_pos hk, Bool.and_eq_true] at h
      obtain ⟨hfound, hrest⟩ := h
      have hname : used.contains
          (generate_unique_name (draws kind) used 50 (suffixes kind)) = false :=
        gun_go_avoids (draws kind) used (suffixes kind) 50 0 hfound
      have ihres := ih _ hrest
      unfold gvn_go
      rw [if_pos hk]
      constructor
      · intro pr hpr
        rcases List.mem_cons.mp hpr with hhead | htail
        · rw [hhead]
          exact hname
        · have hcons := ihres.1 pr htail
          simp only [List.contains_cons, Bool.or_eq_false_iff] at hcons
          exact hcons.2
      · rw [List.map_cons, List.nodup_cons]
        refine ⟨?_, ihres.2⟩
        intro hmem
        rw [List.mem_map] at hmem
        obtain ⟨pr, hpr, hpr2⟩ := hmem
        have hcons := ihres.1 pr hpr
        rw [hpr2] at hcons
        simp [List.contains_cons] at hcons
    · unfold gvn_ok at h
      rw [if_neg hk] at h
      unfold gvn_go
      rw [if_neg hk]
      exact ih used h

/-- Counterexample to claim C6: with every pool draw returning `amount`
(realizable, since `amount` is in the uint pool) against an existing set
containing the whole window of retries, the 50-attempt loop is exhausted
and the fallback appends the numeric suffix `5` without re-checking,
returning `amount5` — which is a member of the existing identifier set. -/
theorem C6_name_collision_counterexample :
    generate_var_names ["uint"] ["amount", "amount5"]
        (fun _ _ => "amount") (fun _ => 5)
      = [("var_uint", "amount5")] ∧
      "amount5" ∈ (["amount", "amount5"] : List String) ∧
      "amount" ∈ UINT_VAR_NAMES ∧ 1 ≤ 5 ∧ 5 ≤ 999 :=
  ⟨rfl, by decide, by decide, by decide, by decide⟩

/-- Amended claim C6: whenever every kind processed in a generation pass
finds a pool name within the 50-attempt retry bound (so the unchecked
numeric-suffix fallback is not used), every generated name avoids the
existing-identifier set and no two names generated in the same pass are
equal. -/
theorem C6_amended (var_types existing_names : List String)
    (draws : String → Nat → String) (suffixes : String → Nat)
    (h : gvn_ok var_types draws suffixes VAR_KINDS existing_names = true) :
    (∀ pr ∈ generate_var_names var_types existing_names draws suffixes,
        existing_names.contains pr.2 = false) ∧
      ((generate_var_names var_types existing_names draws suffixes).map
          fun pr => pr.2).Nodup :=
  gvn_go_spec var_types draws suffixes VAR_KINDS existing_names h

/-- Witness for the amended C6: one declared `uint` kind, drawing
`amount` against an existing set that does not contain it. -/
theorem C6_amended_witness :
    gvn_ok ["uint"] (fun _ _ => "amount") (fun _ => 5) VAR_KINDS ["balance"]
        = true ∧
      ((∀ pr ∈ generate_var_names ["uint"] ["balance"]
            (fun _ _ => "amount") (fun _ => 5),
          (["balance"] : List String).contains pr.2 = false) ∧
        ((generate_var_names ["uint"] ["balance"]
            (fun _ _ => "amount") (fun _ => 5)).map fun pr => pr.2).Nodup) :=
  ⟨by decide, C6_amended ["uint"] ["balance"] _ _ (by decide)⟩

/-! ### Properties of indentation detection -/

/-- The per-line loop of `detect_indentation` computes exactly the
leading whitespace of the first annotated line that is genuine code with
non-empty leading whitespace, defaulting to two spaces. -/
theorem detectLines_eq (lines : List (List Char)) :
    ∀ b : Bool,
      detectLines lines b
        = (match (annotateML b lines).find? claimCodeLineIndented with
            | some li => li.1.takeWhile isIndentChar
            | none => [' ', ' ']) := by
  induction lines with
  | nil => intro b; rfl
  | cons line rest ih =>
    intro b
    have hpredstar : ∀ fl : Bool, containsSub ['*', '/'] (pyStrip line) = true →
        ¬ claimCodeLineIndented (line, fl) = true := by
      intro fl h
      unfold claimCodeLineIndented claimCodeLine
      rw [h]
      simp
    have hpredgen : ∀ fl : Bool, lineIsGenuine (pyStrip line) fl = false →
        ¬ claimCodeLineIndented (line, fl) = true := by
      intro fl h
      unfold claimCodeLineIndented claimCodeLine
      rw [h]
      simp
    have hpredind : ∀ fl : Bool, (line.takeWhile isIndentChar).isEmpty = true →
        ¬ claimCodeLineIndented (line, fl) = true := by
      intro fl h
      unfold claimCodeLineIndented
      rw [h]
      simp
    simp only [detectLines, annotateML]
    by_cases hstar : containsSub ['*', '/'] (pyStrip line) = true
    · rw [if_pos hstar, if_pos hstar,
        List.find?_cons_of_neg _ (hpredstar _ hstar), ih false]
    · rw [if_neg hstar, if_neg hstar]
      by_cases hgen : lineIsGenuine (pyStrip line)
          (if containsSub ['/', '*'] (pyStrip line) = true then true else b) = true
      · rw [if_pos hgen]
        by_cases hind : (line.takeWhile isIndentChar).isEmpty = true
        · rw [if_pos hind, List.find?_cons_of_neg _ (hpredind _ hind), ih]
        · have hpred : claimCodeLineIndented
              (line, if containsSub ['/', '*'] (pyStrip line) = true
                then true else b) = true := by
            unfold claimCodeLineIndented claimCodeLine
            rw [Bool.eq_false_iff.mpr hstar, hgen,
              Bool.eq_false_iff.mpr hind]
            rfl
          rw [if_neg hind, List.find?_cons_of_pos _ hpred]
      · rw [if_neg hgen, List.find?_cons_of_neg _
          (hpredgen _ (Bool.eq_false_iff.mpr hgen)), ih]

/-- Counterexample to claim C9: when the first genuine code line after
the offset sits at column zero, the code does not return its (empty)
leading whitespace — it skips it and returns the indentation of a later
line instead. -/
theorem C9_counterexample :
    detect_indentation "A\ncode();\n   more();\n".data 0 = [' ', ' ', ' '] ∧
      specDetectClaim (linesAfterOffset "A\ncode();\n   more();\n".data 0) = [] ∧
      ([' ', ' ', ' '] : List Char) ≠ [] :=
  ⟨by decide, by decide, by decide⟩

/-- Amended claim C9: for every byte buffer and offset, detection starts
just after the given offset, skips blank lines, single-line comments and
multi-line-comment bodies, and returns the leading whitespace of the
first genuine code line whose leading whitespace is non-empty (genuine
code lines at column zero are passed over), returning the fixed
two-space default when no such line exists before end-of-buffer. -/
theorem C9_amended (content : List Char) (offset : Nat) :
    detect_indentation content offset
      = specDetectAmended (linesAfterOffset content offset) := by
  unfold detect_indentation specDetectAmended
  exact detectLines_eq (linesAfterOffset content offset) false
